import Mathlib

/-!
Shallow embedding of the persistence core of the `simple-notes-app` repository:

* `src/notes_app_frontend/src/utils/encryptedStorage.js` — passphrase-based
  encrypted vault over the browser's persistent string map;
* `src/notes_app_frontend/src/utils/reminders.js` — local reminder scheduling;
* `src/notes_app_frontend/src/utils/versionHistory.js` — per-note snapshot history;
* the `doUnlock` dispatcher of `src/notes_app_frontend/src/App.js`.

Modelling conventions, fixed once for the whole file:

* JS values flowing through `JSON.stringify` / `JSON.parse` are modelled by the
  inductive `Json` type below.  Since `JSON.parse (JSON.stringify v) = v` for
  every JSON-representable value, the string serialization step is modelled as
  the identity and storage holds `Json` values (respectively typed records for
  the encrypted payload, whose shape is produced only by the module itself).
* JS numbers are modelled by `JNum`: an integer payload plus the non-finite
  values `NaN`, `Infinity` and `-Infinity` (fractional values play no role in
  any of the verified properties).
* The WebCrypto primitives (PBKDF2 `deriveKey`, AES-GCM `encrypt`/`decrypt`)
  are browser built-ins, not repository code.  They are modelled as an ideal
  authenticated cipher: a derived key is determined by the (passphrase, salt)
  pair, a ciphertext remembers the key and iv it was produced with, and
  decryption succeeds exactly when key and iv match, failing with the
  authentication error otherwise.  `crypto.getRandomValues` is modelled by
  passing the freshly drawn bytes as explicit arguments.
* `localStorage` is modelled as explicit state threaded through the functions;
  a function that can `throw` returns an `Except`, and a mutating function
  returns the (possibly partially) updated state alongside the result, so a
  throw leaves exactly the mutations already performed — `setItem` itself is
  atomic: it either stores the value or throws leaving the store unchanged.
* Environment facts (WebCrypto availability, storage quota, notification
  support/permission, the current clock) are packaged in explicit environment
  records.
-/

/-- Model of a JS number: a (finite) integer, or one of the non-finite values. -/
inductive JNum where
  | int : Int → JNum
  | nan : JNum
  | inf : JNum
  | ninf : JNum
deriving DecidableEq

/-- Model of `Number.isFinite`. -/
def JNum.isFinite : JNum → Bool
  | .int _ => true
  | _ => false

/-- Model of a JSON-representable JS value. -/
inductive Json where
  | null : Json
  | bool : Bool → Json
  | num : JNum → Json
  | str : String → Json
  | arr : List Json → Json
  | obj : List (String × Json) → Json

/-- Property lookup on a JS object literal (keys are unique in every object
produced by this code base, so first-match lookup is accurate). -/
def lookupField (l : List (String × Json)) (k : String) : Option Json :=
  (l.find? (fun p => p.1 == k)).map (fun p => p.2)

/-- Model of `Array.isArray(v) ? v : []` (used by `saveEncryptedNotes`). -/
def jsArrayCoerce (j : Json) : Json :=
  match j with
  | .arr l => .arr l
  | _ => .arr []

/-- Elements of `v` when `Array.isArray(v)`, else `[]`. -/
def jsArrayOrEmpty (j : Json) : List Json :=
  match j with
  | .arr l => l
  | _ => []

/-- Model of the JS test `parsed && typeof parsed === "object"` (true exactly
for objects and arrays; `null` is falsy). -/
def jsTruthyObject (j : Json) : Bool :=
  match j with
  | .obj _ => true
  | .arr _ => true
  | _ => false

/-- Model of `Array.isArray(o.k) ? o.k : []` on a decrypted value (property
access on an array yields `undefined`, hence the default). -/
def jsPropArrayOr (j : Json) (k : String) : List Json :=
  match j with
  | .obj l =>
    match lookupField l k with
    | some (.arr xs) => xs
    | _ => []
  | _ => []

/-! ## encryptedStorage.js -/

/-- Byte strings (salt, iv) as lists of byte values. -/
abbrev Bytes := List Nat

/-- Model of the key produced by `deriveAesKeyFromPassphrase` (PBKDF2 over
WebCrypto): an ideal KDF, the key is determined by the (passphrase, salt)
pair and two distinct pairs give distinct keys. -/
structure DerivedKey where
  passphrase : String
  salt : Bytes
deriving DecidableEq

/-- Model of `deriveAesKeyFromPassphrase(passphrase, saltBytes)`
(encryptedStorage.js lines 37-59): PBKDF2-SHA-256, 250000 iterations,
256-bit AES-GCM key.  The iteration/length constants do not influence the
functional contract and are recorded in the produced `EncRecord` only. -/
def deriveAesKeyFromPassphrase (passphrase : String) (saltBytes : Bytes) : DerivedKey :=
  { passphrase := passphrase, salt := saltBytes }

/-- Ideal-cipher model of an AES-GCM ciphertext: it determines (key, iv,
plaintext) and authenticates key and iv. -/
structure AesGcmCiphertext where
  key : DerivedKey
  iv : Bytes
  plaintext : Json

/-- Error taxonomy of the vault module.  The JS code throws `Error` objects
with fixed messages; the constructors below correspond, in order, to
"Encryption is not supported in this browser.", "Invalid encrypted payload.",
"Unknown encrypted schema.", the WebCrypto AEAD tag-verification failure
(the spec's AuthenticationError), "Decrypted data was invalid." and a
`localStorage.setItem` quota failure. -/
inductive VaultError where
  | cryptoUnsupported
  | invalidPayload
  | unknownSchema
  | authenticationError
  | decryptedInvalid
  | storageFailure
deriving DecidableEq

/-- Model of `crypto.subtle.encrypt({name: "AES-GCM", iv}, key, plaintext)`. -/
def aesGcmEncrypt (key : DerivedKey) (iv : Bytes) (pt : Json) : AesGcmCiphertext :=
  { key := key, iv := iv, plaintext := pt }

/-- Model of `crypto.subtle.decrypt({name: "AES-GCM", iv}, key, data)`: the
AEAD tag verifies exactly when key and iv match the encrypting ones. -/
def aesGcmDecrypt (key : DerivedKey) (iv : Bytes) (ct : AesGcmCiphertext) :
    Except VaultError Json :=
  if ct.key = key ∧ ct.iv = iv then .ok ct.plaintext else .error .authenticationError

/-- The persisted Encrypted Record (encryptedStorage.js lines 73-81).  Base64
encoding of salt/iv/data is a bijection on byte strings and is modelled as
the identity. -/
structure EncRecord where
  schema : String
  kdfName : String
  kdfHash : String
  kdfIterations : Nat
  cipherName : String
  salt : Bytes
  iv : Bytes
  data : AesGcmCiphertext
  updatedAt : Int

/-- Model of `encryptJsonToPayload(passphrase, jsonString)` (lines 61-82).
`salt` and `iv` are the bytes drawn by the two `randomBytes` calls, passed
explicitly; `now` models `Date.now()`. -/
def encryptJsonToPayload (passphrase : String) (jsonString : Json)
    (salt iv : Bytes) (now : Int) : EncRecord :=
  let key := deriveAesKeyFromPassphrase passphrase salt
  { schema := "enc_notes_v1"
    kdfName := "PBKDF2"
    kdfHash := "SHA-256"
    kdfIterations := 250000
    cipherName := "AES-GCM"
    salt := salt
    iv := iv
    data := aesGcmEncrypt key iv jsonString
    updatedAt := now }

/-- Model of `decryptPayloadToJson(passphrase, payload)` (lines 84-104).  The
`typeof payload` check is subsumed by the `EncRecord` type (every persisted
record is produced by `encryptJsonToPayload`); the schema check and the
authenticated decryption are explicit. -/
def decryptPayloadToJson (passphrase : String) (payload : EncRecord) :
    Except VaultError Json :=
  if payload.schema ≠ "enc_notes_v1" then .error .unknownSchema
  else
    let key := deriveAesKeyFromPassphrase passphrase payload.salt
    aesGcmDecrypt key payload.iv payload.data

/-- The three `localStorage` keys used by encryptedStorage.js, as typed slots:
`retro_notes_encrypted_v1`, `retro_notes_v1`, `retro_notes_trash_v1`.
`none` models an absent key. -/
structure VaultStorage where
  encrypted : Option EncRecord
  legacyNotes : Option Json
  legacyTrash : Option Json
deriving Inhabited

/-- Runtime environment of the vault module: `isWebCryptoSupported()` and
whether `localStorage.setItem` succeeds (quota / availability). -/
structure CryptoEnv where
  webCrypto : Bool
  storageOk : Bool

/-- Result record of `readLegacyNotesFromLocalStorage`. -/
structure LegacyRead where
  activeNotes : List Json
  trashedNotes : List Json
  hadLegacyData : Bool

/-- Model of `readLegacyNotesFromLocalStorage()` (lines 106-123).  Stored
legacy values are JSON documents (the catch branch for unparsable text is
unreachable at the `Json` level). -/
def readLegacyNotesFromLocalStorage (s : VaultStorage) : LegacyRead :=
  let notes := (s.legacyNotes).getD (Json.arr [])
  let trash := (s.legacyTrash).getD (Json.arr [])
  { activeNotes := jsArrayOrEmpty notes
    trashedNotes := jsArrayOrEmpty trash
    hadLegacyData := s.legacyNotes.isSome || s.legacyTrash.isSome }

/-- Model of `clearLegacyUnencryptedStorage()` (lines 125-133);
`removeItem` does not throw. -/
def clearLegacyUnencryptedStorage (s : VaultStorage) : VaultStorage :=
  { s with legacyNotes := none, legacyTrash := none }

/-- Model of `hasEncryptedPayload()` (lines 157-164). -/
def hasEncryptedPayload (s : VaultStorage) : Bool :=
  s.encrypted.isSome

/-- Model of `hasLegacyUnencryptedNotes()` (lines 167-174). -/
def hasLegacyUnencryptedNotes (s : VaultStorage) : Bool :=
  s.legacyNotes.isSome || s.legacyTrash.isSome

/-- Model of `unlockEncryptedNotes(passphrase)` (lines 177-204): decrypts the
stored record, treating an absent record as an empty vault. Read-only. -/
def unlockEncryptedNotes (env : CryptoEnv) (passphrase : String) (s : VaultStorage) :
    Except VaultError (List Json × List Json) :=
  if !env.webCrypto then .error .cryptoUnsupported
  else
    match s.encrypted with
    | none => .ok ([], [])
    | some payload =>
      match decryptPayloadToJson passphrase payload with
      | .error e => .error e
      | .ok parsed =>
        if jsTruthyObject parsed then
          .ok (jsPropArrayOr parsed "activeNotes", jsPropArrayOr parsed "trashedNotes")
        else .error .decryptedInvalid

/-- Model of `saveEncryptedNotes(passphrase, {activeNotes, trashedNotes})`
(lines 207-227).  `salt`/`iv` are the fresh random bytes drawn inside
`encryptJsonToPayload`, `now` is `Date.now()`.  Returns the result together
with the updated storage; a throw leaves storage exactly as it was, since
the single `setItem` is the only mutation. -/
def saveEncryptedNotes (env : CryptoEnv) (passphrase : String)
    (activeNotes trashedNotes : Json) (salt iv : Bytes) (now : Int)
    (s : VaultStorage) : Except VaultError Unit × VaultStorage :=
  if !env.webCrypto then (.error .cryptoUnsupported, s)
  else
    let json := Json.obj
      [("schemaVersion", .num (.int 1)),
       ("activeNotes", jsArrayCoerce activeNotes),
       ("trashedNotes", jsArrayCoerce trashedNotes)]
    let payload := encryptJsonToPayload passphrase json salt iv now
    if env.storageOk then (.ok (), { s with encrypted := some payload })
    else (.error .storageFailure, s)

/-- Result record of `createEncryptedVaultFromLegacy`. -/
structure MigrationResult where
  migrated : Bool
  activeNotes : List Json
  trashedNotes : List Json

/-- Model of `createEncryptedVaultFromLegacy(passphrase)` (lines 230-254):
reads the legacy keys, saves them encrypted, and deletes the legacy keys
only after the save returned; a save failure propagates before any
destructive step. -/
def createEncryptedVaultFromLegacy (env : CryptoEnv) (passphrase : String)
    (salt iv : Bytes) (now : Int) (s : VaultStorage) :
    Except VaultError MigrationResult × VaultStorage :=
  if !env.webCrypto then (.error .cryptoUnsupported, s)
  else
    let legacy := readLegacyNotesFromLocalStorage s
    match saveEncryptedNotes env passphrase (Json.arr legacy.activeNotes)
        (Json.arr legacy.trashedNotes) salt iv now s with
    | (.error e, s1) => (.error e, s1)
    | (.ok _, s1) =>
      let s2 := clearLegacyUnencryptedStorage s1
      (.ok { migrated := legacy.hadLegacyData
             activeNotes := legacy.activeNotes
             trashedNotes := legacy.trashedNotes }, s2)

/-- Model of the payload-selecting branch of `doUnlock(phrase)` in App.js
(lines 448-463): when no encrypted record exists but legacy plaintext data
exists, the one-shot migration runs instead of decryption, and the returned
collections are the migrated ones. -/
def doUnlockPayload (env : CryptoEnv) (phrase : String) (salt iv : Bytes)
    (now : Int) (s : VaultStorage) :
    Except VaultError (List Json × List Json) × VaultStorage :=
  let existsEnc := hasEncryptedPayload s
  let hasLegacy := hasLegacyUnencryptedNotes s
  if !existsEnc && hasLegacy then
    match createEncryptedVaultFromLegacy env phrase salt iv now s with
    | (.error e, s1) => (.error e, s1)
    | (.ok r, s1) => (.ok (r.activeNotes, r.trashedNotes), s1)
  else (unlockEncryptedNotes env phrase s, s)

/-! ## reminders.js -/

/-- Runtime environment of the reminders module: `notificationsSupported()`,
the current `Notification.permission` string, whether `localStorage.setItem`
succeeds, and the current `Date.now()` clock. -/
structure RemEnv where
  notifSupported : Bool
  notifPermission : String
  storageOk : Bool
  now : Int

/-- State of the reminders module: the parsed value stored under
`retro_notes_reminders_v1` (`none` = key absent), the module-level
`scheduledTimeouts` map (noteId, timeoutId) in insertion order, and the next
timeout id handed out by `window.setTimeout`. -/
structure RemState where
  stored : Option Json
  timeouts : List (String × Nat)
  nextTimeoutId : Nat

/-- Errors thrown by the reminders module: "scheduleReminder requires
note.id", "scheduleReminder requires remindAt millis" (the spec's
InvalidTimeError), and a `localStorage.setItem` failure. -/
inductive RemError where
  | missingNoteId
  | invalidTime
  | storageFailure
deriving DecidableEq

/-- Model of `readReminderMap()` (reminders.js lines 27-37): absent,
unparsable or non-object values read as the empty map. -/
def readReminderMap (s : RemState) : List (String × Json) :=
  match s.stored with
  | some (.obj l) => l
  | _ => []

/-- Model of `writeReminderMap(map)` (lines 43-45): a bare `setItem`, which
throws when storage is unavailable or full. -/
def writeReminderMap (env : RemEnv) (s : RemState) (m : List (String × Json)) :
    Except RemError RemState :=
  if env.storageOk then .ok { s with stored := some (.obj m) } else .error .storageFailure

/-- JS object update `map[k] = v`: replaces the value in place when the key
exists, otherwise appends (JS objects keep insertion order). -/
def setMapEntry (m : List (String × Json)) (k : String) (v : Json) :
    List (String × Json) :=
  if m.any (fun p => p.1 == k) then m.map (fun p => if p.1 == k then (k, v) else p)
  else m ++ [(k, v)]

/-- Model of `internalCancelTimeout(noteId)` (lines 109-115). -/
def internalCancelTimeout (s : RemState) (noteId : String) : RemState :=
  { s with timeouts := s.timeouts.filter (fun p => p.1 != noteId) }

/-- The `Math.max(0, remindAt - Date.now())` delay computed by
`internalScheduleTimeout` (line 120); only finite values reach it. -/
def jsReminderDelay (env : RemEnv) (remindAt : JNum) : Int :=
  match remindAt with
  | .int n => max 0 (n - env.now)
  | _ => 0

/-- Model of `internalScheduleTimeout(reminder)` (lines 117-138): cancels any
armed timeout for the note id, then arms a fresh one.  The timeout callback
(firing) is beyond the properties verified here; arming records the pair in
`scheduledTimeouts`. -/
def internalScheduleTimeout (env : RemEnv) (s : RemState) (noteId : String)
    (remindAt : JNum) : RemState :=
  let s1 := internalCancelTimeout s noteId
  let _delay := jsReminderDelay env remindAt
  { s1 with timeouts := s1.timeouts ++ [(noteId, s1.nextTimeoutId)]
            nextTimeoutId := s1.nextTimeoutId + 1 }

/-- Collapse every maximal whitespace run to a single space, the effect of
`String.replace(/\s+/g, " ")`. -/
def collapseWs : List Char → List Char
  | [] => []
  | c :: rest =>
    let tail := collapseWs rest
    if c.isWhitespace then
      match tail with
      | ' ' :: _ => tail
      | _ => ' ' :: tail
    else c :: tail

/-- Model of `safePreview(body)` (lines 81-86): collapse whitespace, trim,
truncate to 120 characters. -/
def safePreview (body : String) : String :=
  String.mk ((((collapseWs body.data).dropWhile Char.isWhitespace).reverse.dropWhile
    Char.isWhitespace).reverse.take 120)

/-- The note argument of `scheduleReminder` / `addNoteSnapshot`: the caller
passes `{id, title, body}` (App.js). -/
structure JsNote where
  id : String
  title : String
  body : String

/-- Model of `scheduleReminder(note, remindAt)` (lines 172-196): validates the
note id and the finiteness of `remindAt`, persists the reminder under the
note id, then arms the timeout.  A throw returns the state as mutated so
far (only the `setItem` in `writeReminderMap` mutates). -/
def scheduleReminder (env : RemEnv) (note : JsNote) (remindAt : JNum)
    (s : RemState) : Except RemError Unit × RemState :=
  let id := note.id
  if id = "" then (.error .missingNoteId, s)
  else if !remindAt.isFinite then (.error .invalidTime, s)
  else
    let title := if note.title = "" then "Untitled" else note.title
    let reminder : Json := .obj
      [("noteId", .str id), ("remindAt", .num remindAt),
       ("title", .str title), ("preview", .str (safePreview note.body))]
    let m := setMapEntry (readReminderMap s) id reminder
    match writeReminderMap env s m with
    | .error e => (.error e, s)
    | .ok s1 => (.ok (), internalScheduleTimeout env s1 id remindAt)

/-- The shape test applied to each persisted entry by `rescheduleAllReminders`
(line 216): `r && typeof r === "object" && Number.isFinite(r.remindAt)`.
Arrays pass the `typeof` test but have no `remindAt` property. -/
def reminderShapeOk (r : Json) : Bool :=
  match r with
  | .obj l =>
    match lookupField l "remindAt" with
    | some (.num (.int _)) => true
    | _ => false
  | _ => false

/-- The `remindAt` of a well-shaped persisted reminder (0 otherwise; only
read behind `reminderShapeOk`). -/
def reminderRemindAt (r : Json) : Int :=
  match r with
  | .obj l =>
    match lookupField l "remindAt" with
    | some (.num (.int n)) => n
    | _ => 0
  | _ => 0

/-- The `remindAt` as a JS number, for re-arming (line 245). -/
def reminderRemindAtNum (r : Json) : JNum :=
  match r with
  | .obj l =>
    match lookupField l "remindAt" with
    | some (.num j) => j
    | _ => .nan
  | _ => .nan

/-- The drop test of the cleanup loop in `rescheduleAllReminders`
(lines 215-232), with the source's test order: malformed, then orphaned,
then already past. -/
def reminderShouldDrop (env : RemEnv) (existingNoteIds : Option (List String))
    (e : String × Json) : Bool :=
  if !reminderShapeOk e.2 then true
  else if (match existingNoteIds with
           | some ids => !ids.contains e.1
           | none => false) then true
  else if reminderRemindAt e.2 ≤ env.now then true
  else false

/-- Model of `rescheduleAllReminders({existingNoteIds})` (lines 199-248):
clears all armed timeouts, drops malformed/orphaned/past persisted entries
(persisting the cleaned map when anything was dropped, ignoring a write
failure), then re-arms timeouts for the surviving entries only when
notifications are supported and permission is "granted". -/
def rescheduleAllReminders (env : RemEnv) (existingNoteIds : Option (List String))
    (s : RemState) : RemState :=
  let s0 := { s with timeouts := ([] : List (String × Nat)) }
  let m := readReminderMap s0
  let m2 := m.filter (fun e => !reminderShouldDrop env existingNoteIds e)
  let mutated := m.any (reminderShouldDrop env existingNoteIds)
  let s1 := if mutated then
      (match writeReminderMap env s0 m2 with
       | .ok s' => s'
       | .error _ => s0)
    else s0
  if !env.notifSupported || env.notifPermission ≠ "granted" then s1
  else m2.foldl (fun acc e => internalScheduleTimeout env acc e.1 (reminderRemindAtNum e.2)) s1

/-- The keep-predicate stated by the orphan-cleanup claim: an entry survives
`rescheduleAll` exactly when its note id is in `existingNoteIds` and it is a
well-formed reminder whose `remindAt` lies strictly in the future. -/
def keptByCleanupClaim (env : RemEnv) (ids : List String) (e : String × Json) : Bool :=
  ids.contains e.1 && reminderShapeOk e.2 && decide (env.now < reminderRemindAt e.2)

/-! ## versionHistory.js -/

/-- A normalized snapshot as produced by `readSnapshots` (versionHistory.js
lines 44-49). -/
structure Snapshot where
  id : String
  createdAt : Int
  title : String
  body : String
deriving DecidableEq

/-- The history store: the parsed values stored under the per-note history
keys, keyed by the full `localStorage` key. -/
abbrev HistStore := List (String × Json)

/-- Model of `historyStorageKey(noteId)` (lines 22-25). -/
def historyStorageKey (noteId : String) : String :=
  "retro_notes_history_v1:" ++ noteId

/-- Key lookup in the history store (a `localStorage.getItem`). -/
def lookupStore (st : HistStore) (k : String) : Option Json :=
  (st.find? (fun p => p.1 == k)).map (fun p => p.2)

/-- The JS test `s && typeof s === "object"` of the first read filter
(line 43). -/
def jsObjectLike (j : Json) : Bool :=
  match j with
  | .obj _ => true
  | .arr _ => true
  | _ => false

/-- The field normalization applied to each stored entry (lines 44-49):
strings default to `""`, `createdAt` defaults to `0` unless finite. -/
def coerceSnapshot (j : Json) : Snapshot :=
  match j with
  | .obj l =>
    { id := match lookupField l "id" with
            | some (.str s) => s
            | _ => ""
      createdAt := match lookupField l "createdAt" with
                   | some (.num (.int n)) => n
                   | _ => 0
      title := match lookupField l "title" with
               | some (.str s) => s
               | _ => ""
      body := match lookupField l "body" with
              | some (.str s) => s
              | _ => "" }
  | _ => { id := "", createdAt := 0, title := "", body := "" }

/-- Stable insertion (descending `createdAt`) used to model the stable
`Array.prototype.sort((a, b) => b.createdAt - a.createdAt)` of line 51. -/
def insertByCreatedAtDesc (x : Snapshot) : List Snapshot → List Snapshot
  | [] => [x]
  | y :: ys =>
    if y.createdAt ≤ x.createdAt then x :: y :: ys
    else y :: insertByCreatedAtDesc x ys

/-- Stable sort by descending `createdAt` (newest first). -/
def sortByCreatedAtDesc (l : List Snapshot) : List Snapshot :=
  l.foldr insertByCreatedAtDesc []

/-- Model of `readSnapshots(noteId)` (lines 35-55): parse, keep object-like
entries, normalize fields, keep entries with truthy `id` and `createdAt`,
sort newest first. -/
def readSnapshots (noteId : String) (st : HistStore) : List Snapshot :=
  match lookupStore st (historyStorageKey noteId) with
  | some (.arr parsed) =>
    sortByCreatedAtDesc
      (((parsed.filter jsObjectLike).map coerceSnapshot).filter
        (fun s => s.id != "" && s.createdAt != 0))
  | _ => []

/-- JSON form of a snapshot as written by `writeSnapshots` (lines 57-60). -/
def snapshotToJson (s : Snapshot) : Json :=
  .obj [("id", .str s.id), ("createdAt", .num (.int s.createdAt)),
        ("title", .str s.title), ("body", .str s.body)]

/-- Model of `writeSnapshots(noteId, snapshots)` (lines 57-60): a `setItem`
of the serialized array under the per-note key. -/
def writeSnapshots (noteId : String) (snapshots : List Snapshot) (st : HistStore) :
    HistStore :=
  setMapEntry st (historyStorageKey noteId) (.arr (snapshots.map snapshotToJson))

/-- Model of `createSnapshotId()` (lines 62-64): `Date.now()` and the random
suffix are passed explicitly. -/
def createSnapshotId (now : Int) (rand : String) : String :=
  toString now ++ "-" ++ rand

/-- Model of `normalizedTextForCompare(text)` (lines 66-69): strip the
trailing whitespace run (`replace(/\s+$/g, "")`). -/
def normalizedTextForCompare (text : String) : String :=
  String.mk ((text.data.reverse.dropWhile Char.isWhitespace).reverse)

/-- The cap resolution `Number.isFinite(opts.maxSnapshots) ? opts.maxSnapshots
: DEFAULT_MAX_SNAPSHOTS` (line 95, default 25). -/
def jsMaxSnapshots (maxSnapshots? : Option JNum) : Int :=
  match maxSnapshots? with
  | some (.int n) => n
  | _ => 25

/-- The dedup test of `addNoteSnapshot` (lines 98-107): whitespace-normalized
title and body both equal to those of the most recent existing snapshot. -/
def isDupOfLatest (note : JsNote) (existing : List Snapshot) : Bool :=
  match existing.head? with
  | some latest =>
    normalizedTextForCompare note.title == normalizedTextForCompare latest.title &&
    normalizedTextForCompare note.body == normalizedTextForCompare latest.body
  | none => false

/-- Model of `addNoteSnapshot(note, opts)` (lines 79-119): dedup against the
most recent existing snapshot after whitespace normalization, else prepend
a fresh snapshot and truncate to the cap `Math.max(1, maxSnapshots)`.
`now` models `Date.now()`, `rand` the random id suffix, `maxSnapshots?`
the `opts.maxSnapshots` value (absent or non-finite falls back to the
default of 25). -/
def addNoteSnapshot (note : JsNote) (maxSnapshots? : Option JNum) (now : Int)
    (rand : String) (st : HistStore) : Option Snapshot × HistStore :=
  let id := note.id
  if id = "" then (none, st)
  else
    let existing := readSnapshots id st
    if isDupOfLatest note existing then (none, st)
    else
      let snapshot : Snapshot :=
        { id := createSnapshotId now rand, createdAt := now
          title := note.title, body := note.body }
      let next := (snapshot :: existing).take (max 1 (jsMaxSnapshots maxSnapshots?)).toNat
      (some snapshot, writeSnapshots id next st)

/-- Iterated `addNoteSnapshot` for one note: step `j` adds the contents
`f j` at clock `j + 1` (chronological order, fresh random suffix `"r"`). -/
def addChain (noteId : String) (f : Nat → String × String) (maxSnapshots? : Option JNum) :
    Nat → HistStore → HistStore
  | 0, st => st
  | j + 1, st =>
    (addNoteSnapshot ⟨noteId, (f j).1, (f j).2⟩ maxSnapshots? ((j : Int) + 1) "r"
      (addChain noteId f maxSnapshots? j st)).2

/-- The snapshot that step `j` of `addChain` stores. -/
def chainSnap (f : Nat → String × String) (j : Nat) : Snapshot :=
  { id := createSnapshotId ((j : Int) + 1) "r"
    createdAt := (j : Int) + 1
    title := (f j).1
    body := (f j).2 }

/-- Claim C1: saving a vault payload and unlocking with the same passphrase
returns the saved note collections (round-trip through JSON
re-serialization and the authenticated cipher). -/
theorem save_unlock_roundtrip (env : CryptoEnv) (hwc : env.webCrypto = true)
    (hst : env.storageOk = true) (k : String) (a t : List Json)
    (salt iv : Bytes) (now : Int) (s : VaultStorage) :
    (saveEncryptedNotes env k (.arr a) (.arr t) salt iv now s).1 = .ok () ∧
    unlockEncryptedNotes env k (saveEncryptedNotes env k (.arr a) (.arr t) salt iv now s).2
      = .ok (a, t) := by
  simp [saveEncryptedNotes, unlockEncryptedNotes, decryptPayloadToJson,
    encryptJsonToPayload, aesGcmEncrypt, aesGcmDecrypt, deriveAesKeyFromPassphrase,
    jsArrayCoerce, jsTruthyObject, jsPropArrayOr, lookupField, hwc, hst]

/-- Witness for C1 at a concrete input. -/
theorem save_unlock_roundtrip_witness :
    (saveEncryptedNotes ⟨true, true⟩ "pw" (.arr [.str "n1"]) (.arr [])
      [1] [2] 5 ⟨none, none, none⟩).1 = .ok () ∧
    unlockEncryptedNotes ⟨true, true⟩ "pw"
      (saveEncryptedNotes ⟨true, true⟩ "pw" (.arr [.str "n1"]) (.arr [])
        [1] [2] 5 ⟨none, none, none⟩).2 = .ok ([.str "n1"], []) :=
  save_unlock_roundtrip ⟨true, true⟩ rfl rfl "pw" [.str "n1"] [] [1] [2] 5 ⟨none, none, none⟩

/-- Claim C2: decrypting a record that was encrypted under a different
passphrase fails with the authentication error and never yields a
plaintext. -/
theorem wrong_key_rejection (k1 k2 : String) (h : k1 ≠ k2) (json : Json)
    (salt iv : Bytes) (now : Int) :
    decryptPayloadToJson k2 (encryptJsonToPayload k1 json salt iv now)
      = .error .authenticationError := by
  simp only [decryptPayloadToJson, encryptJsonToPayload, aesGcmEncrypt, aesGcmDecrypt,
    deriveAesKeyFromPassphrase]
  rw [if_neg (by simp), if_neg]
  simp only [not_and]
  intro hk
  exact absurd (congrArg DerivedKey.passphrase hk) h

/-- Witness for C2 at a concrete input. -/
theorem wrong_key_rejection_witness :
    decryptPayloadToJson "b" (encryptJsonToPayload "a" (.arr []) [1] [2] 0)
      = .error .authenticationError :=
  wrong_key_rejection "a" "b" (by decide) (.arr []) [1] [2] 0

/-- Claim C10: unlocking when no encrypted record is persisted succeeds for
every passphrase (including the empty string) and returns empty
collections. -/
theorem unlock_empty_vault (env : CryptoEnv) (hwc : env.webCrypto = true)
    (k : String) (s : VaultStorage) (hne : s.encrypted = none) :
    unlockEncryptedNotes env k s = .ok ([], []) := by
  simp [unlockEncryptedNotes, hwc, hne]

/-- Witness for C10 at a concrete input (empty passphrase). -/
theorem unlock_empty_vault_witness :
    unlockEncryptedNotes ⟨true, true⟩ "" ⟨none, some (.arr []), none⟩ = .ok ([], []) :=
  unlock_empty_vault ⟨true, true⟩ rfl "" ⟨none, some (.arr []), none⟩ rfl

/-- Success behaviour of the legacy migration, shared groundwork: result
record, persisted encrypted payload, cleared legacy keys, and decryptable
vault. -/
theorem createVault_from_legacy_success (env : CryptoEnv) (hwc : env.webCrypto = true)
    (hst : env.storageOk = true) (s : VaultStorage)
    (a t : List Json) (hln : s.legacyNotes = some (.arr a))
    (hlt : s.legacyTrash = some (.arr t)) (k : String) (salt iv : Bytes) (now : Int) :
    (createEncryptedVaultFromLegacy env k salt iv now s).1 = .ok ⟨true, a, t⟩ ∧
    hasEncryptedPayload (createEncryptedVaultFromLegacy env k salt iv now s).2 = true ∧
    hasLegacyUnencryptedNotes (createEncryptedVaultFromLegacy env k salt iv now s).2 = false ∧
    unlockEncryptedNotes env k (createEncryptedVaultFromLegacy env k salt iv now s).2
      = .ok (a, t) := by
  refine ⟨?_, ?_, ?_, ?_⟩
  · simp [createEncryptedVaultFromLegacy, saveEncryptedNotes, readLegacyNotesFromLocalStorage,
      clearLegacyUnencryptedStorage, jsArrayOrEmpty, hwc, hst, hln, hlt]
  · simp [createEncryptedVaultFromLegacy, saveEncryptedNotes, readLegacyNotesFromLocalStorage,
      clearLegacyUnencryptedStorage, hasEncryptedPayload, jsArrayOrEmpty, hwc, hst, hln, hlt]
  · simp [createEncryptedVaultFromLegacy, saveEncryptedNotes, readLegacyNotesFromLocalStorage,
      clearLegacyUnencryptedStorage, hasLegacyUnencryptedNotes, jsArrayOrEmpty, hwc, hst,
      hln, hlt]
  · simp [createEncryptedVaultFromLegacy, saveEncryptedNotes, readLegacyNotesFromLocalStorage,
      clearLegacyUnencryptedStorage, unlockEncryptedNotes, decryptPayloadToJson,
      encryptJsonToPayload, aesGcmEncrypt, aesGcmDecrypt, deriveAesKeyFromPassphrase,
      jsArrayCoerce, jsTruthyObject, jsPropArrayOr, lookupField, jsArrayOrEmpty,
      hwc, hst, hln, hlt]

/-- A failing migration mutates nothing: the only write sits behind the
save, and the legacy keys are deleted only after the save returned. -/
theorem createVault_from_legacy_error_unchanged (s : VaultStorage) :
    ∀ (env2 : CryptoEnv) (k2 : String) (salt2 iv2 : Bytes) (now2 : Int) (e : VaultError),
      (createEncryptedVaultFromLegacy env2 k2 salt2 iv2 now2 s).1 = .error e →
      (createEncryptedVaultFromLegacy env2 k2 salt2 iv2 now2 s).2 = s := by
  intro env2 k2 salt2 iv2 now2 e herr
  by_cases h2 : env2.webCrypto
  · by_cases h3 : env2.storageOk
    · simp [createEncryptedVaultFromLegacy, saveEncryptedNotes, h2, h3] at herr
    · simp [createEncryptedVaultFromLegacy, saveEncryptedNotes, h2, h3]
  · simp [createEncryptedVaultFromLegacy, h2]

/-- Claim C3: with legacy plaintext present and no encrypted record, the
migration leaves an encrypted payload, no legacy keys, and a vault that
decrypts under the same passphrase to the original legacy collections; and
whenever the migration fails (for any environment), storage — in particular
the legacy data — is left untouched. -/
theorem migration_safety (env : CryptoEnv) (hwc : env.webCrypto = true)
    (hst : env.storageOk = true) (s : VaultStorage) (hne : s.encrypted = none)
    (a t : List Json) (hln : s.legacyNotes = some (.arr a))
    (hlt : s.legacyTrash = some (.arr t)) (k : String) (salt iv : Bytes) (now : Int) :
    (createEncryptedVaultFromLegacy env k salt iv now s).1 = .ok ⟨true, a, t⟩ ∧
    hasEncryptedPayload (createEncryptedVaultFromLegacy env k salt iv now s).2 = true ∧
    hasLegacyUnencryptedNotes (createEncryptedVaultFromLegacy env k salt iv now s).2 = false ∧
    unlockEncryptedNotes env k (createEncryptedVaultFromLegacy env k salt iv now s).2
      = .ok (a, t) ∧
    (∀ (env2 : CryptoEnv) (k2 : String) (salt2 iv2 : Bytes) (now2 : Int) (e : VaultError),
      (createEncryptedVaultFromLegacy env2 k2 salt2 iv2 now2 s).1 = .error e →
      (createEncryptedVaultFromLegacy env2 k2 salt2 iv2 now2 s).2 = s) := by
  obtain ⟨h1, h2, h3, h4⟩ := createVault_from_legacy_success env hwc hst s a t hln hlt
    k salt iv now
  exact ⟨h1, h2, h3, h4, createVault_from_legacy_error_unchanged s⟩

/-- Witness for C3 at a concrete input. -/
theorem migration_safety_witness :
    (createEncryptedVaultFromLegacy ⟨true, true⟩ "pw" [1] [2] 5
        ⟨none, some (.arr [.str "n1"]), some (.arr [.str "n2"])⟩).1
      = .ok ⟨true, [.str "n1"], [.str "n2"]⟩ ∧
    hasEncryptedPayload (createEncryptedVaultFromLegacy ⟨true, true⟩ "pw" [1] [2] 5
        ⟨none, some (.arr [.str "n1"]), some (.arr [.str "n2"])⟩).2 = true ∧
    hasLegacyUnencryptedNotes (createEncryptedVaultFromLegacy ⟨true, true⟩ "pw" [1] [2] 5
        ⟨none, some (.arr [.str "n1"]), some (.arr [.str "n2"])⟩).2 = false ∧
    unlockEncryptedNotes ⟨true, true⟩ "pw"
        (createEncryptedVaultFromLegacy ⟨true, true⟩ "pw" [1] [2] 5
          ⟨none, some (.arr [.str "n1"]), some (.arr [.str "n2"])⟩).2
      = .ok ([.str "n1"], [.str "n2"]) ∧
    (∀ (env2 : CryptoEnv) (k2 : String) (salt2 iv2 : Bytes) (now2 : Int) (e : VaultError),
      (createEncryptedVaultFromLegacy env2 k2 salt2 iv2 now2
          ⟨none, some (.arr [.str "n1"]), some (.arr [.str "n2"])⟩).1 = .error e →
      (createEncryptedVaultFromLegacy env2 k2 salt2 iv2 now2
          ⟨none, some (.arr [.str "n1"]), some (.arr [.str "n2"])⟩).2
        = ⟨none, some (.arr [.str "n1"]), some (.arr [.str "n2"])⟩) :=
  migration_safety ⟨true, true⟩ rfl rfl
    ⟨none, some (.arr [.str "n1"]), some (.arr [.str "n2"])⟩ rfl
    [.str "n1"] [.str "n2"] rfl rfl "pw" [1] [2] 5

/-- Claim C4: the unlock dispatcher, called with no encrypted record but with
legacy plaintext present, performs the one-shot migration instead of
decrypting and returns the migrated collections. -/
theorem unlock_dispatch_migrates (env : CryptoEnv) (hwc : env.webCrypto = true)
    (hst : env.storageOk = true) (s : VaultStorage) (hne : s.encrypted = none)
    (a t : List Json) (hln : s.legacyNotes = some (.arr a))
    (hlt : s.legacyTrash = some (.arr t)) (k : String) (salt iv : Bytes) (now : Int) :
    doUnlockPayload env k salt iv now s
      = ((createEncryptedVaultFromLegacy env k salt iv now s).1.map
          (fun r => (r.activeNotes, r.trashedNotes)),
         (createEncryptedVaultFromLegacy env k salt iv now s).2) ∧
    (doUnlockPayload env k salt iv now s).1 = .ok (a, t) ∧
    hasEncryptedPayload (doUnlockPayload env k salt iv now s).2 = true := by
  have hbranch : doUnlockPayload env k salt iv now s
      = ((createEncryptedVaultFromLegacy env k salt iv now s).1.map
          (fun r => (r.activeNotes, r.trashedNotes)),
         (createEncryptedVaultFromLegacy env k salt iv now s).2) := by
    have hd : hasEncryptedPayload s = false := by simp [hasEncryptedPayload, hne]
    have hl : hasLegacyUnencryptedNotes s = true := by
      simp [hasLegacyUnencryptedNotes, hln]
    simp only [doUnlockPayload, hd, hl, Bool.not_false, Bool.and_self, if_true]
    rcases hm : createEncryptedVaultFromLegacy env k salt iv now s with ⟨res, s1⟩
    cases res <;> simp [Except.map]
  refine ⟨hbranch, ?_, ?_⟩
  · rw [hbranch]
    have := (createVault_from_legacy_success env hwc hst s a t hln hlt k salt iv now).1
    simp [this, Except.map]
  · rw [hbranch]
    exact (createVault_from_legacy_success env hwc hst s a t hln hlt k salt iv now).2.1

/-- Witness for C4 at a concrete input. -/
theorem unlock_dispatch_migrates_witness :
    doUnlockPayload ⟨true, true⟩ "pw" [1] [2] 5
        ⟨none, some (.arr [.str "x"]), some (.arr [])⟩
      = ((createEncryptedVaultFromLegacy ⟨true, true⟩ "pw" [1] [2] 5
            ⟨none, some (.arr [.str "x"]), some (.arr [])⟩).1.map
          (fun r => (r.activeNotes, r.trashedNotes)),
         (createEncryptedVaultFromLegacy ⟨true, true⟩ "pw" [1] [2] 5
            ⟨none, some (.arr [.str "x"]), some (.arr [])⟩).2) ∧
    (doUnlockPayload ⟨true, true⟩ "pw" [1] [2] 5
        ⟨none, some (.arr [.str "x"]), some (.arr [])⟩).1 = .ok ([.str "x"], []) ∧
    hasEncryptedPayload (doUnlockPayload ⟨true, true⟩ "pw" [1] [2] 5
        ⟨none, some (.arr [.str "x"]), some (.arr [])⟩).2 = true :=
  unlock_dispatch_migrates ⟨true, true⟩ rfl rfl
    ⟨none, some (.arr [.str "x"]), some (.arr [])⟩ rfl [.str "x"] [] rfl rfl "pw" [1] [2] 5

/-- Claim C6: two successive saves, even with identical plaintext and
passphrase, persist records whose (salt, iv) pairs are exactly the fresh
random draws of each call — so distinct draws give distinct (salt, iv)
pairs and distinct ciphertexts.  (That the two draws of
`crypto.getRandomValues` differ is the probabilistic freshness assumption,
taken as a hypothesis.) -/
theorem salt_iv_freshness (env : CryptoEnv) (hwc : env.webCrypto = true)
    (hst : env.storageOk = true) (k : String) (a t : Json)
    (salt1 iv1 salt2 iv2 : Bytes) (now1 now2 : Int) (s : VaultStorage)
    (hfresh : (salt1, iv1) ≠ (salt2, iv2)) :
    ∃ r1 r2 : EncRecord,
      (saveEncryptedNotes env k a t salt1 iv1 now1 s).2.encrypted = some r1 ∧
      (saveEncryptedNotes env k a t salt2 iv2 now2
        (saveEncryptedNotes env k a t salt1 iv1 now1 s).2).2.encrypted = some r2 ∧
      (r1.salt, r1.iv) = (salt1, iv1) ∧ (r2.salt, r2.iv) = (salt2, iv2) ∧
      (r1.salt, r1.iv) ≠ (r2.salt, r2.iv) ∧ r1.data ≠ r2.data := by
  have hsim : ∀ (salt iv : Bytes) (now : Int) (s' : VaultStorage),
      (saveEncryptedNotes env k a t salt iv now s').2.encrypted
        = some (encryptJsonToPayload k (Json.obj
            [("schemaVersion", .num (.int 1)),
             ("activeNotes", jsArrayCoerce a),
             ("trashedNotes", jsArrayCoerce t)]) salt iv now) := by
    intro salt iv now s'
    simp [saveEncryptedNotes, hwc, hst]
  refine ⟨_, _, hsim salt1 iv1 now1 s, hsim salt2 iv2 now2 _, rfl, rfl, hfresh, ?_⟩
  intro hdata
  apply hfresh
  simp only [encryptJsonToPayload, aesGcmEncrypt] at hdata
  have hkey := congrArg AesGcmCiphertext.key hdata
  have hiv := congrArg AesGcmCiphertext.iv hdata
  have hsalt := congrArg DerivedKey.salt hkey
  simp only [deriveAesKeyFromPassphrase] at hsalt
  simp only at hiv
  rw [hsalt, hiv]

/-- Witness for C6 at a concrete input. -/
theorem salt_iv_freshness_witness :
    ∃ r1 r2 : EncRecord,
      (saveEncryptedNotes ⟨true, true⟩ "pw" (.arr []) (.arr []) [1] [2] 5
        ⟨none, none, none⟩).2.encrypted = some r1 ∧
      (saveEncryptedNotes ⟨true, true⟩ "pw" (.arr []) (.arr []) [3] [4] 6
        (saveEncryptedNotes ⟨true, true⟩ "pw" (.arr []) (.arr []) [1] [2] 5
          ⟨none, none, none⟩).2).2.encrypted = some r2 ∧
      (r1.salt, r1.iv) = ([1], [2]) ∧ (r2.salt, r2.iv) = ([3], [4]) ∧
      (r1.salt, r1.iv) ≠ (r2.salt, r2.iv) ∧ r1.data ≠ r2.data :=
  salt_iv_freshness ⟨true, true⟩ rfl rfl "pw" (.arr []) (.arr [])
    [1] [2] [3] [4] 5 6 ⟨none, none, none⟩ (by decide)

/-- Counterexample to claim C5 as stated: with the clock at 10, scheduling a
reminder for the finite but past timestamp 5 does not fail — it returns
normally, persists the reminder entry, and arms a timeout (which will fire
with delay `max(0, 5 - 10) = 0`).  Only non-finite timestamps are
rejected by `scheduleReminder`; the past-timestamp guard lives in the
App-level caller (`setReminderForSelectedNote`). -/
theorem scheduleReminder_accepts_past :
    (5 : Int) < (10 : Int) ∧
    (scheduleReminder ⟨true, "granted", true, 10⟩ ⟨"n1", "T", "B"⟩ (.int 5)
        ⟨none, [], 0⟩).1 = .ok () ∧
    (scheduleReminder ⟨true, "granted", true, 10⟩ ⟨"n1", "T", "B"⟩ (.int 5)
        ⟨none, [], 0⟩).2.stored
      = some (.obj [("n1", .obj
          [("noteId", .str "n1"), ("remindAt", .num (.int 5)),
           ("title", .str "T"), ("preview", .str "B")])]) ∧
    (scheduleReminder ⟨true, "granted", true, 10⟩ ⟨"n1", "T", "B"⟩ (.int 5)
        ⟨none, [], 0⟩).2.timeouts = [("n1", 0)] := by
  refine ⟨by decide, ?_, ?_, ?_⟩ <;> rfl

/-- Claim C5 as amended: scheduling with a non-finite timestamp fails with
the invalid-time error and leaves both the persisted reminder map and the
armed timeouts untouched; a finite past timestamp, however, is accepted,
persisted and armed with zero delay (see the counterexample). -/
theorem scheduleReminder_nonfinite_rejected (env : RemEnv) (note : JsNote)
    (hid : note.id ≠ "") (t : JNum) (ht : t.isFinite = false) (s : RemState) :
    scheduleReminder env note t s = (.error .invalidTime, s) := by
  simp [scheduleReminder, hid, ht]

/-- Witness for the amended C5 at a concrete input. -/
theorem scheduleReminder_nonfinite_rejected_witness :
    scheduleReminder ⟨true, "granted", true, 10⟩ ⟨"n1", "T", "B"⟩ .nan ⟨none, [], 0⟩
      = (.error .invalidTime, ⟨none, [], 0⟩) :=
  scheduleReminder_nonfinite_rejected ⟨true, "granted", true, 10⟩ ⟨"n1", "T", "B"⟩
    (by decide) .nan rfl ⟨none, [], 0⟩

/-- Re-arming does not touch the persisted map. -/
theorem foldArm_stored (env : RemEnv) (m2 : List (String × Json)) :
    ∀ s0 : RemState,
      (m2.foldl (fun acc e => internalScheduleTimeout env acc e.1 (reminderRemindAtNum e.2))
        s0).stored = s0.stored := by
  induction m2 with
  | nil => intro s0; rfl
  | cons e rest ih =>
    intro s0
    rw [List.foldl_cons, ih]
    rfl

/-- Re-arming over entries with pairwise-distinct, previously unarmed note
ids arms exactly those note ids, in order. -/
theorem foldArm_timeouts (env : RemEnv) (m2 : List (String × Json)) :
    ∀ s0 : RemState,
      (∀ k ∈ m2.map Prod.fst, k ∉ s0.timeouts.map Prod.fst) →
      (m2.map Prod.fst).Nodup →
      (m2.foldl (fun acc e => internalScheduleTimeout env acc e.1 (reminderRemindAtNum e.2))
          s0).timeouts.map Prod.fst
        = s0.timeouts.map Prod.fst ++ m2.map Prod.fst := by
  induction m2 with
  | nil => intro s0 _ _; simp
  | cons e rest ih =>
    intro s0 hdisj hnd
    rw [List.foldl_cons]
    have hcancel : s0.timeouts.filter (fun p => p.1 != e.1) = s0.timeouts := by
      rw [List.filter_eq_self]
      intro p hp
      have : p.1 ∈ s0.timeouts.map Prod.fst := List.mem_map_of_mem Prod.fst hp
      have hne : p.1 ≠ e.1 := by
        intro hk
        exact hdisj e.1 (by simp) (hk ▸ this)
      simpa using hne
    have hstep : (internalScheduleTimeout env s0 e.1 (reminderRemindAtNum e.2)).timeouts
        = s0.timeouts ++ [(e.1, s0.nextTimeoutId)] := by
      simp [internalScheduleTimeout, internalCancelTimeout, hcancel]
    have hdisj' : ∀ k ∈ rest.map Prod.fst,
        k ∉ (internalScheduleTimeout env s0 e.1 (reminderRemindAtNum e.2)).timeouts.map
          Prod.fst := by
      intro k hk
      rw [hstep]
      simp only [List.map_append, List.map_cons, List.map_nil, List.mem_append,
        List.mem_cons, List.not_mem_nil]
      rintro (hmem | hmem)
      · exact hdisj k (by simp [hk]) hmem
      · rcases hmem with hmem | hmem
        · rw [List.map_cons] at hnd
          have := (List.nodup_cons.mp hnd).1
          exact this (hmem ▸ hk)
        · exact hmem
    have hnd' : (rest.map Prod.fst).Nodup := by
      rw [List.map_cons] at hnd
      exact (List.nodup_cons.mp hnd).2
    rw [ih _ hdisj' hnd', hstep]
    simp

/-- The source's keep-condition in `rescheduleAllReminders` coincides with
the claim's predicate (well-formed, non-orphaned, strictly future). -/
theorem keep_eq_claim (env : RemEnv) (ids : List String) (e : String × Json) :
    (!reminderShouldDrop env (some ids) e) = keptByCleanupClaim env ids e := by
  obtain ⟨k, r⟩ := e
  cases hs : reminderShapeOk r <;> cases hc : ids.contains k <;>
    by_cases hn : reminderRemindAt r ≤ env.now <;>
      simp [reminderShouldDrop, keptByCleanupClaim, hs, hc, hn] <;> omega

/-- Claim C7: after `rescheduleAll` with a set of existing note ids, the
persisted map holds exactly the previously-persisted well-formed entries
whose note id exists and whose `remindAt` is strictly in the future;
timeouts are re-armed for exactly those entries when notification
permission is granted, and no timeout is armed otherwise (while the
entries stay persisted). -/
theorem reminder_orphan_cleanup (env : RemEnv) (hst : env.storageOk = true)
    (ids : List String) (s : RemState)
    (hnodup : ((readReminderMap s).map Prod.fst).Nodup) :
    readReminderMap (rescheduleAllReminders env (some ids) s)
      = (readReminderMap s).filter (keptByCleanupClaim env ids) ∧
    (env.notifSupported = true → env.notifPermission = "granted" →
      (rescheduleAllReminders env (some ids) s).timeouts.map Prod.fst
        = ((readReminderMap s).filter (keptByCleanupClaim env ids)).map Prod.fst) ∧
    (env.notifSupported = false ∨ ¬ env.notifPermission = "granted" →
      (rescheduleAllReminders env (some ids) s).timeouts = []) := by
  have hfe : (readReminderMap s).filter (fun e => !reminderShouldDrop env (some ids) e)
      = (readReminderMap s).filter (keptByCleanupClaim env ids) :=
    List.filter_congr (fun e _ => keep_eq_claim env ids e)
  have hread0 : readReminderMap { s with timeouts := ([] : List (String × Nat)) }
      = readReminderMap s := rfl
  set m := readReminderMap s with hm
  set m2 := m.filter (fun e => !reminderShouldDrop env (some ids) e) with hm2
  have hm2nodup : (m2.map Prod.fst).Nodup :=
    hnodup.sublist ((List.filter_sublist m).map Prod.fst)
  have hs1 : ∃ s1 : RemState,
      (rescheduleAllReminders env (some ids) s
        = if !env.notifSupported || env.notifPermission ≠ "granted" then s1
          else m2.foldl
            (fun acc e => internalScheduleTimeout env acc e.1 (reminderRemindAtNum e.2)) s1) ∧
      readReminderMap s1 = m2 ∧ s1.timeouts = [] := by
    by_cases hmut : m.any (reminderShouldDrop env (some ids))
    · refine ⟨{ s with stored := some (.obj m2), timeouts := [] }, ?_, rfl, rfl⟩
      simp only [rescheduleAllReminders, hread0, ← hm, ← hm2, hmut, if_true,
        writeReminderMap, hst]
    · refine ⟨{ s with timeouts := [] }, ?_, ?_, rfl⟩
      · simp only [rescheduleAllReminders, hread0, ← hm, ← hm2,
          hmut, Bool.false_eq_true, if_false]
      · rw [hread0, hm2]
        rw [List.filter_eq_self.mpr]
        intro a ha
        have := List.any_eq_false.mp (Bool.not_eq_true _ ▸ hmut) a ha
        simp [this]
  obtain ⟨s1, heq, hs1read, hs1t⟩ := hs1
  by_cases hperm : !env.notifSupported || env.notifPermission ≠ "granted"
  · rw [heq, if_pos hperm]
    refine ⟨by rw [hs1read, hfe], ?_, fun _ => hs1t⟩
    intro hsup hgr
    exfalso
    rw [hsup, hgr] at hperm
    simp at hperm
  · rw [heq, if_neg hperm]
    have hstored := foldArm_stored env m2 s1
    refine ⟨?_, ?_, ?_⟩
    · have : readReminderMap
          (m2.foldl (fun acc e => internalScheduleTimeout env acc e.1
            (reminderRemindAtNum e.2)) s1) = readReminderMap s1 := by
        unfold readReminderMap
        rw [hstored]
      rw [this, hs1read, hfe]
    · intro _ _
      rw [foldArm_timeouts env m2 s1 (by rw [hs1t]; simp) hm2nodup, hs1t, hfe]
      simp
    · intro hcases
      exfalso
      apply hperm
      rcases hcases with hc | hc
      · simp [hc]
      · simp [hc]

/-- Witness for C7 at a concrete input: reminders for note ids A, B, C with
`existingNoteIds = [A, C]`. -/
theorem reminder_orphan_cleanup_witness :
    readReminderMap (rescheduleAllReminders ⟨true, "granted", true, 100⟩ (some ["A", "C"])
        ⟨some (.obj [("A", .obj [("remindAt", .num (.int 150))]),
                     ("B", .obj [("remindAt", .num (.int 160))]),
                     ("C", .obj [("remindAt", .num (.int 170))])]), [], 0⟩)
      = (readReminderMap
          ⟨some (.obj [("A", .obj [("remindAt", .num (.int 150))]),
                       ("B", .obj [("remindAt", .num (.int 160))]),
                       ("C", .obj [("remindAt", .num (.int 170))])]), [], 0⟩).filter
          (keptByCleanupClaim ⟨true, "granted", true, 100⟩ ["A", "C"]) ∧
    ((⟨true, "granted", true, 100⟩ : RemEnv).notifSupported = true →
      (⟨true, "granted", true, 100⟩ : RemEnv).notifPermission = "granted" →
      (rescheduleAllReminders ⟨true, "granted", true, 100⟩ (some ["A", "C"])
          ⟨some (.obj [("A", .obj [("remindAt", .num (.int 150))]),
                       ("B", .obj [("remindAt", .num (.int 160))]),
                       ("C", .obj [("remindAt", .num (.int 170))])]), [], 0⟩).timeouts.map
          Prod.fst
        = ((readReminderMap
            ⟨some (.obj [("A", .obj [("remindAt", .num (.int 150))]),
                         ("B", .obj [("remindAt", .num (.int 160))]),
                         ("C", .obj [("remindAt", .num (.int 170))])]), [], 0⟩).filter
            (keptByCleanupClaim ⟨true, "granted", true, 100⟩ ["A", "C"])).map Prod.fst) ∧
    ((⟨true, "granted", true, 100⟩ : RemEnv).notifSupported = false ∨
      ¬ (⟨true, "granted", true, 100⟩ : RemEnv).notifPermission = "granted" →
      (rescheduleAllReminders ⟨true, "granted", true, 100⟩ (some ["A", "C"])
          ⟨some (.obj [("A", .obj [("remindAt", .num (.int 150))]),
                       ("B", .obj [("remindAt", .num (.int 160))]),
                       ("C", .obj [("remindAt", .num (.int 170))])]), [], 0⟩).timeouts = []) :=
  reminder_orphan_cleanup ⟨true, "granted", true, 100⟩ rfl ["A", "C"]
    ⟨some (.obj [("A", .obj [("remindAt", .num (.int 150))]),
                 ("B", .obj [("remindAt", .num (.int 160))]),
                 ("C", .obj [("remindAt", .num (.int 170))])]), [], 0⟩ (by decide)

/-- Membership through stable insertion. -/
theorem mem_insertByCreatedAtDesc (x y : Snapshot) :
    ∀ l : List Snapshot, y ∈ insertByCreatedAtDesc x l ↔ y = x ∨ y ∈ l := by
  intro l
  induction l with
  | nil => simp [insertByCreatedAtDesc]
  | cons z zs ih =>
    by_cases h : z.createdAt ≤ x.createdAt
    · simp [insertByCreatedAtDesc, h]
    · simp only [insertByCreatedAtDesc, h, if_false, List.mem_cons, ih]
      tauto

/-- Stable insertion preserves descending order. -/
theorem pairwise_insertByCreatedAtDesc (x : Snapshot) :
    ∀ l : List Snapshot, l.Pairwise (fun a b => b.createdAt ≤ a.createdAt) →
      (insertByCreatedAtDesc x l).Pairwise (fun a b => b.createdAt ≤ a.createdAt) := by
  intro l
  induction l with
  | nil => intro _; simp [insertByCreatedAtDesc]
  | cons z zs ih =>
    intro hp
    rw [List.pairwise_cons] at hp
    by_cases h : z.createdAt ≤ x.createdAt
    · rw [insertByCreatedAtDesc, if_pos h, List.pairwise_cons]
      refine ⟨?_, List.pairwise_cons.mpr hp⟩
      intro a ha
      rcases List.mem_cons.mp ha with rfl | ha
      · exact h
      · exact le_trans (hp.1 a ha) h
    · rw [insertByCreatedAtDesc, if_neg h, List.pairwise_cons]
      refine ⟨?_, ih hp.2⟩
      intro a ha
      rcases (mem_insertByCreatedAtDesc x a zs).mp ha with rfl | ha
      · omega
      · exact hp.1 a ha

/-- The stable sort produces a descending list. -/
theorem sortByCreatedAtDesc_pairwise (l : List Snapshot) :
    (sortByCreatedAtDesc l).Pairwise (fun a b => b.createdAt ≤ a.createdAt) := by
  induction l with
  | nil => simp [sortByCreatedAtDesc]
  | cons x xs ih => exact pairwise_insertByCreatedAtDesc x _ ih

/-- Membership through the stable sort. -/
theorem mem_sortByCreatedAtDesc (y : Snapshot) (l : List Snapshot) :
    y ∈ sortByCreatedAtDesc l ↔ y ∈ l := by
  induction l with
  | nil => simp [sortByCreatedAtDesc]
  | cons x xs ih =>
    show y ∈ insertByCreatedAtDesc x (sortByCreatedAtDesc xs) ↔ y ∈ x :: xs
    rw [mem_insertByCreatedAtDesc, ih, List.mem_cons]

/-- Sorting an already-descending list is the identity (the stable sort
keeps an already-sorted array untouched). -/
theorem sortByCreatedAtDesc_eq_self (l : List Snapshot)
    (h : l.Pairwise (fun a b => b.createdAt ≤ a.createdAt)) :
    sortByCreatedAtDesc l = l := by
  induction l with
  | nil => rfl
  | cons x xs ih =>
    rw [List.pairwise_cons] at h
    have hxs : sortByCreatedAtDesc xs = xs := ih h.2
    show insertByCreatedAtDesc x (List.foldr insertByCreatedAtDesc [] xs) = x :: xs
    rw [show List.foldr insertByCreatedAtDesc [] xs = sortByCreatedAtDesc xs from rfl, hxs]
    cases xs with
    | nil => rfl
    | cons y ys =>
      have hy : y.createdAt ≤ x.createdAt := h.1 y (by simp)
      simp [insertByCreatedAtDesc, hy]

/-- Reading back a written snapshot object recovers it unchanged. -/
theorem coerceSnapshot_roundtrip (x : Snapshot) :
    coerceSnapshot (snapshotToJson x) = x := rfl

/-- Snapshot ids produced by `createSnapshotId` are never empty. -/
theorem createSnapshotId_ne_empty (now : Int) (rand : String) :
    createSnapshotId now rand ≠ "" := by
  intro h
  have := congrArg String.length h
  rw [createSnapshotId] at this
  simp [String.length_append] at this
  exact absurd this.1.2 (by decide)

/-- Updating a key makes it readable (the `setItem` / `getItem` contract),
for the map-replace branch. -/
theorem lookupStore_mapReplace (k : String) (v : Json) :
    ∀ st : List (String × Json), st.any (fun p => p.1 == k) = true →
      lookupStore (st.map (fun p => if p.1 == k then (k, v) else p)) k = some v := by
  intro st
  induction st with
  | nil => intro h; simp at h
  | cons q qs ih =>
    intro h
    cases hq : q.1 == k with
    | true => simp [lookupStore, List.find?, hq]
    | false =>
      rw [List.any_cons, hq, Bool.false_or] at h
      rw [List.map_cons, if_neg (by simp [hq])]
      show lookupStore (q :: qs.map (fun p => if p.1 == k then (k, v) else p)) k = some v
      rw [lookupStore, List.find?_cons_of_neg _ (by simp [hq])]
      exact ih h

/-- Updating a key makes it readable, for the append branch. -/
theorem lookupStore_append (k : String) (v : Json) :
    ∀ st : List (String × Json), st.any (fun p => p.1 == k) = false →
      lookupStore (st ++ [(k, v)]) k = some v := by
  intro st
  induction st with
  | nil => intro _; simp [lookupStore, List.find?]
  | cons q qs ih =>
    intro h
    rw [List.any_cons] at h
    have hq : (q.1 == k) = false := by
      cases hq' : q.1 == k
      · rfl
      · rw [hq'] at h; simp at h
    have hqs : qs.any (fun p => p.1 == k) = false := by
      cases hqs' : qs.any (fun p => p.1 == k)
      · rfl
      · rw [hqs'] at h; simp at h
    rw [List.cons_append, lookupStore, List.find?_cons_of_neg _ (by simpa using hq)]
    exact ih hqs

/-- Updating a key makes it readable through `setMapEntry`. -/
theorem lookupStore_setMapEntry (st : List (String × Json)) (k : String) (v : Json) :
    lookupStore (setMapEntry st k v) k = some v := by
  rw [setMapEntry]
  cases h : st.any (fun p => p.1 == k)
  · rw [if_neg (by simp [h])]
    exact lookupStore_append k v st h
  · rw [if_pos (by simp [h])]
    exact lookupStore_mapReplace k v st h

/-- Reading back a written, valid, descending snapshot list recovers it
exactly. -/
theorem readSnapshots_writeSnapshots (noteId : String) (snaps : List Snapshot)
    (st : HistStore) (hvalid : ∀ x ∈ snaps, x.id ≠ "" ∧ x.createdAt ≠ 0)
    (hsorted : snaps.Pairwise (fun a b => b.createdAt ≤ a.createdAt)) :
    readSnapshots noteId (writeSnapshots noteId snaps st) = snaps := by
  rw [readSnapshots, writeSnapshots, lookupStore_setMapEntry]
  show sortByCreatedAtDesc
      ((((snaps.map snapshotToJson).filter jsObjectLike).map coerceSnapshot).filter
        (fun s => s.id != "" && s.createdAt != 0)) = snaps
  have h1 : (snaps.map snapshotToJson).filter jsObjectLike = snaps.map snapshotToJson := by
    rw [List.filter_eq_self]
    intro a ha
    rcases List.mem_map.mp ha with ⟨x, _, rfl⟩
    rfl
  rw [h1, List.map_map]
  have h2 : snaps.map (coerceSnapshot ∘ snapshotToJson) = snaps := by
    rw [show coerceSnapshot ∘ snapshotToJson = id from funext coerceSnapshot_roundtrip]
    exact List.map_id snaps
  rw [h2]
  have h3 : snaps.filter (fun s => s.id != "" && s.createdAt != 0) = snaps := by
    rw [List.filter_eq_self]
    intro a ha
    have := hvalid a ha
    simp [this.1, this.2]
  rw [h3]
  exact sortByCreatedAtDesc_eq_self snaps hsorted

/-- Entries returned by `readSnapshots` have truthy `id` and `createdAt`. -/
theorem readSnapshots_valid (noteId : String) (st : HistStore) :
    ∀ x ∈ readSnapshots noteId st, x.id ≠ "" ∧ x.createdAt ≠ 0 := by
  intro x hx
  rw [readSnapshots] at hx
  rcases hlook : lookupStore st (historyStorageKey noteId) with _ | v
  · rw [hlook] at hx; simp at hx
  · rw [hlook] at hx
    cases v with
    | arr parsed =>
      rw [mem_sortByCreatedAtDesc] at hx
      have := List.of_mem_filter hx
      simp only [Bool.and_eq_true, bne_iff_ne, ne_eq] at this
      exact this
    | null => simp at hx
    | bool b => simp at hx
    | num n => simp at hx
    | str s => simp at hx
    | obj o => simp at hx

/-- The list returned by `readSnapshots` is descending in `createdAt`. -/
theorem readSnapshots_sorted (noteId : String) (st : HistStore) :
    (readSnapshots noteId st).Pairwise (fun a b => b.createdAt ≤ a.createdAt) := by
  rw [readSnapshots]
  rcases lookupStore st (historyStorageKey noteId) with _ | v
  · simp
  · cases v with
    | arr parsed => exact sortByCreatedAtDesc_pairwise _
    | null => simp
    | bool b => simp
    | num n => simp
    | str s => simp
    | obj o => simp

/-- Claim C8: a second `addSnapshot` with title and body unchanged up to
whitespace normalization is a no-op — it compares against the most recent
snapshot, stores nothing and returns no snapshot — so two successive calls
store exactly one new snapshot (exactly one total when starting from an
empty history).  The clock hypotheses say the first call happens at a
truthy `Date.now()` not earlier than any stored snapshot. -/
theorem snapshot_dedup (note : JsNote) (hid : note.id ≠ "") (m? : Option JNum)
    (now1 : Int) (h1 : now1 ≠ 0) (rand1 : String) (now2 : Int) (rand2 : String)
    (st : HistStore)
    (hmono : ∀ x ∈ readSnapshots note.id st, x.createdAt ≤ now1) :
    addNoteSnapshot note m? now2 rand2 (addNoteSnapshot note m? now1 rand1 st).2
      = (none, (addNoteSnapshot note m? now1 rand1 st).2) ∧
    (readSnapshots note.id st = [] →
      (readSnapshots note.id (addNoteSnapshot note m? now1 rand1 st).2).length = 1) := by
  have hK : 1 ≤ (max 1 (jsMaxSnapshots m?)).toNat := by
    have := le_max_left (1 : Int) (jsMaxSnapshots m?)
    omega
  by_cases hdup : isDupOfLatest note (readSnapshots note.id st) = true
  · have hfirst : addNoteSnapshot note m? now1 rand1 st = (none, st) := by
      simp only [addNoteSnapshot, if_neg hid]
      rw [if_pos hdup]
    refine ⟨?_, ?_⟩
    · rw [hfirst]
      simp only [addNoteSnapshot, if_neg hid]
      rw [if_pos hdup]
    · intro hemp
      rw [hemp] at hdup
      simp [isDupOfLatest] at hdup
  · have hfirst : addNoteSnapshot note m? now1 rand1 st
        = (some ⟨createSnapshotId now1 rand1, now1, note.title, note.body⟩,
           writeSnapshots note.id
             ((⟨createSnapshotId now1 rand1, now1, note.title, note.body⟩ ::
               readSnapshots note.id st).take (max 1 (jsMaxSnapshots m?)).toNat) st) := by
      simp only [addNoteSnapshot, if_neg hid]
      rw [if_neg hdup]
    have hvalid : ∀ x ∈ ((⟨createSnapshotId now1 rand1, now1, note.title, note.body⟩ ::
        readSnapshots note.id st).take (max 1 (jsMaxSnapshots m?)).toNat),
        x.id ≠ "" ∧ x.createdAt ≠ 0 := by
      intro x hx
      rcases List.mem_cons.mp (List.mem_of_mem_take hx) with rfl | hx'
      · exact ⟨createSnapshotId_ne_empty now1 rand1, h1⟩
      · exact readSnapshots_valid note.id st x hx'
    have hsorted : (((⟨createSnapshotId now1 rand1, now1, note.title, note.body⟩ :
        Snapshot) :: readSnapshots note.id st).take
          (max 1 (jsMaxSnapshots m?)).toNat).Pairwise
        (fun a b => b.createdAt ≤ a.createdAt) := by
      refine List.Pairwise.sublist (List.take_sublist _ _) ?_
      rw [List.pairwise_cons]
      exact ⟨fun y hy => hmono y hy, readSnapshots_sorted note.id st⟩
    have hread1 := readSnapshots_writeSnapshots note.id _ st hvalid hsorted
    have hhead : (((⟨createSnapshotId now1 rand1, now1, note.title, note.body⟩ :
        Snapshot) :: readSnapshots note.id st).take
          (max 1 (jsMaxSnapshots m?)).toNat).head?
        = some ⟨createSnapshotId now1 rand1, now1, note.title, note.body⟩ := by
      obtain ⟨K', hK'⟩ : ∃ K', (max 1 (jsMaxSnapshots m?)).toNat = K' + 1 :=
        ⟨(max 1 (jsMaxSnapshots m?)).toNat - 1, by omega⟩
      rw [hK', List.take_succ_cons]
      rfl
    refine ⟨?_, ?_⟩
    · rw [hfirst]
      have hdup2 : isDupOfLatest note (readSnapshots note.id (writeSnapshots note.id
          ((⟨createSnapshotId now1 rand1, now1, note.title, note.body⟩ ::
            readSnapshots note.id st).take (max 1 (jsMaxSnapshots m?)).toNat) st)) = true := by
        rw [hread1, isDupOfLatest, hhead]
        simp
      simp only [addNoteSnapshot, if_neg hid]
      rw [if_pos hdup2]
    · intro hemp
      rw [hfirst]
      simp only [hread1]
      rw [hemp, List.length_take]
      simp only [List.length_cons, List.length_nil]
      omega

/-- Witness for C8 at a concrete input (fresh history). -/
theorem snapshot_dedup_witness :
    addNoteSnapshot ⟨"n1", "T", "B"⟩ none 7 "r"
        (addNoteSnapshot ⟨"n1", "T", "B"⟩ none 3 "q" []).2
      = (none, (addNoteSnapshot ⟨"n1", "T", "B"⟩ none 3 "q" []).2) ∧
    (readSnapshots (JsNote.mk "n1" "T" "B").id [] = [] →
      (readSnapshots (JsNote.mk "n1" "T" "B").id
        (addNoteSnapshot ⟨"n1", "T", "B"⟩ none 3 "q" []).2).length = 1) :=
  snapshot_dedup ⟨"n1", "T", "B"⟩ (by decide) none 3 (by decide) "q" 7 "r" []
    (by decide)

/-- After `m` chained adds with consecutively distinct contents on a fresh
history capped at `c`, the stored history is the newest-first reversal of
the added snapshots, truncated to `c`. -/
theorem addChain_readSnapshots (noteId : String) (hid : noteId ≠ "")
    (f : Nat → String × String) (c : Nat) (hc : 1 ≤ c) (st0 : HistStore)
    (h0 : lookupStore st0 (historyStorageKey noteId) = none) :
    ∀ m : Nat,
      (∀ j, j < m - 1 →
        ¬(normalizedTextForCompare (f (j + 1)).1 = normalizedTextForCompare (f j).1 ∧
          normalizedTextForCompare (f (j + 1)).2 = normalizedTextForCompare (f j).2)) →
      readSnapshots noteId (addChain noteId f (some (.int (c : Int))) m st0)
        = (((List.range m).map (chainSnap f)).reverse).take c := by
  have hKc : (max 1 (jsMaxSnapshots (some (.int (c : Int))))).toNat = c := by
    show (max 1 ((c : Nat) : Int)).toNat = c
    rw [max_eq_right (by exact_mod_cast hc)]
    exact Int.toNat_natCast c
  have htake : ∀ (x : Snapshot) (l : List Snapshot) (n : Nat),
      (x :: l.take n).take n = (x :: l).take n := by
    intro x l n
    cases n with
    | zero => simp
    | succ k => simp [List.take_take]
  intro m
  induction m with
  | zero =>
    intro _
    simp [addChain, readSnapshots, h0]
  | succ m ih =>
    intro hdist
    have ihm := ih (fun j hj => hdist j (by omega))
    have hstep : addChain noteId f (some (.int (c : Int))) (m + 1) st0
        = (addNoteSnapshot ⟨noteId, (f m).1, (f m).2⟩ (some (.int (c : Int)))
            ((m : Int) + 1) "r"
            (addChain noteId f (some (.int (c : Int))) m st0)).2 := rfl
    have hdupm : isDupOfLatest ⟨noteId, (f m).1, (f m).2⟩
        (readSnapshots noteId (addChain noteId f (some (.int (c : Int))) m st0)) = false := by
      rw [ihm]
      cases m with
      | zero => simp [isDupOfLatest]
      | succ j =>
        have hrange : ((List.range (j + 1)).map (chainSnap f)).reverse
            = chainSnap f j :: ((List.range j).map (chainSnap f)).reverse := by
          rw [List.range_succ, List.map_append, List.reverse_append]
          rfl
        obtain ⟨c', hc'⟩ : ∃ c', c = c' + 1 := ⟨c - 1, by omega⟩
        rw [hrange, hc', List.take_succ_cons, isDupOfLatest]
        simp only [List.head?_cons]
        have hd := hdist j (by omega)
        by_cases e1 : normalizedTextForCompare (f (j + 1)).1
            = normalizedTextForCompare (f j).1
        · by_cases e2 : normalizedTextForCompare (f (j + 1)).2
              = normalizedTextForCompare (f j).2
          · exact absurd ⟨e1, e2⟩ hd
          · simp [chainSnap, e2]
        · simp [chainSnap, e1]
    have hadd : addNoteSnapshot ⟨noteId, (f m).1, (f m).2⟩ (some (.int (c : Int)))
        ((m : Int) + 1) "r" (addChain noteId f (some (.int (c : Int))) m st0)
        = (some (chainSnap f m),
           writeSnapshots noteId
             ((chainSnap f m ::
               readSnapshots noteId (addChain noteId f (some (.int (c : Int))) m st0)).take
               (max 1 (jsMaxSnapshots (some (.int (c : Int))))).toNat)
             (addChain noteId f (some (.int (c : Int))) m st0)) := by
      simp only [addNoteSnapshot, if_neg hid]
      rw [if_neg (by simp [hdupm])]
      rfl
    have hvalid : ∀ x ∈ ((chainSnap f m ::
        readSnapshots noteId (addChain noteId f (some (.int (c : Int))) m st0)).take
          (max 1 (jsMaxSnapshots (some (.int (c : Int))))).toNat),
        x.id ≠ "" ∧ x.createdAt ≠ 0 := by
      intro x hx
      rcases List.mem_cons.mp (List.mem_of_mem_take hx) with rfl | hx'
      · refine ⟨createSnapshotId_ne_empty _ _, ?_⟩
        show (m : Int) + 1 ≠ 0
        omega
      · exact readSnapshots_valid noteId _ x hx'
    have hsorted : (((chainSnap f m ::
        readSnapshots noteId (addChain noteId f (some (.int (c : Int))) m st0)).take
          (max 1 (jsMaxSnapshots (some (.int (c : Int))))).toNat)).Pairwise
        (fun a b => b.createdAt ≤ a.createdAt) := by
      refine List.Pairwise.sublist (List.take_sublist _ _) ?_
      rw [List.pairwise_cons]
      refine ⟨?_, readSnapshots_sorted noteId _⟩
      intro y hy
      rw [ihm] at hy
      have hy' : y ∈ (List.range m).map (chainSnap f) := by
        rw [← List.mem_reverse]
        exact List.mem_of_mem_take hy
      rcases List.mem_map.mp hy' with ⟨j, hj, rfl⟩
      have hjm := List.mem_range.mp hj
      show (j : Int) + 1 ≤ (m : Int) + 1
      omega
    rw [hstep, hadd]
    show readSnapshots noteId (writeSnapshots noteId
      ((chainSnap f m ::
        readSnapshots noteId (addChain noteId f (some (.int (c : Int))) m st0)).take
        (max 1 (jsMaxSnapshots (some (.int (c : Int))))).toNat)
      (addChain noteId f (some (.int (c : Int))) m st0)) = _
    rw [readSnapshots_writeSnapshots noteId _ _ hvalid hsorted, hKc, ihm, htake]
    have hrev : ((List.range (m + 1)).map (chainSnap f)).reverse
        = chainSnap f m :: ((List.range m).map (chainSnap f)).reverse := by
      rw [List.range_succ, List.map_append, List.reverse_append]
      rfl
    rw [hrev]

/-- Claim C9: adding `maxSnapshots + 5` consecutively distinct snapshots for
one note (fresh history, cap `c ≥ 1` passed as `opts.maxSnapshots`) leaves
exactly `c` snapshots stored, newest first, the oldest five evicted: the
stored list is the reversal of the added sequence truncated to `c`. -/
theorem snapshot_cap (noteId : String) (hid : noteId ≠ "") (c : Nat) (hc : 1 ≤ c)
    (f : Nat → String × String) (st0 : HistStore)
    (h0 : lookupStore st0 (historyStorageKey noteId) = none)
    (hdist : ∀ j, j < c + 5 - 1 →
      ¬(normalizedTextForCompare (f (j + 1)).1 = normalizedTextForCompare (f j).1 ∧
        normalizedTextForCompare (f (j + 1)).2 = normalizedTextForCompare (f j).2)) :
    readSnapshots noteId (addChain noteId f (some (.int (c : Int))) (c + 5) st0)
      = (((List.range (c + 5)).map (chainSnap f)).reverse).take c ∧
    (readSnapshots noteId (addChain noteId f (some (.int (c : Int))) (c + 5) st0)).length
      = c := by
  have h := addChain_readSnapshots noteId hid f c hc st0 h0 (c + 5) hdist
  refine ⟨h, ?_⟩
  rw [h, List.length_take, List.length_reverse, List.length_map, List.length_range]
  omega

/-- Witness for C9 at a concrete input: cap 1, six distinct snapshots. -/
theorem snapshot_cap_witness :
    readSnapshots "n1" (addChain "n1" (fun j => (toString j, "")) (some (.int (1 : Int)))
        (1 + 5) [])
      = (((List.range (1 + 5)).map (chainSnap (fun j => (toString j, "")))).reverse).take 1 ∧
    (readSnapshots "n1" (addChain "n1" (fun j => (toString j, "")) (some (.int (1 : Int)))
        (1 + 5) [])).length = 1 :=
  snapshot_cap "n1" (by decide) 1 (by decide) (fun j => (toString j, "")) [] rfl (by decide)
